import Mathlib

/-!
Verification development for the dsa-commiter repository.

The repository shells out to the external `git` binary and to the OS
filesystem.  We embed the Python source shallowly:

* every subprocess invocation is represented by its argument vector
  (`List String`); an environment (`GitEnv`) assigns each invocation a
  result (`CmdRes.ok stdout` for exit code 0, `CmdRes.err msg` for a
  non-zero exit, where `msg` is the text the Python handlers match on);
* each embedded operation returns its boolean result together with the
  trace of subprocess invocations it issued, in order;
* the filesystem is an ideal abstract store (`FS`): directories, file
  contents, and the trace of OS calls issued.  `os.makedirs` fails on an
  existing directory exactly when `exist_ok` is false; writes succeed
  (the claims under verification do not concern OS-level I/O errors);
* interactive prompts (`rich.prompt.Prompt/Confirm`) are caller-supplied
  values, mirroring how the Python code consumes them.

Definitions are translated from `src/dsa_commiter/git_operations.py`,
`src/dsa_commiter/file_operations.py` and `src/dsa_commiter/cli_interface.py`.
-/

/-- Result of one subprocess invocation: `ok stdout` for exit code 0,
`err msg` for a non-zero exit with diagnostic text `msg`
(Python: `e.stderr.decode() if e.stderr else str(e)`). -/
inductive CmdRes where
  | ok (out : String)
  | err (msg : String)
deriving DecidableEq

def CmdRes.isOk : CmdRes → Bool
  | .ok _ => true
  | .err _ => false

/-- An environment assigning each git argument vector its result. -/
abbrev GitEnv := List String → CmdRes

/-- Substring occurrence at the head of a character list. -/
def occursAt : List Char → List Char → Bool
  | [], _ => true
  | _ :: _, [] => false
  | p :: ps, c :: cs => p == c && occursAt ps cs

/-- Substring occurrence anywhere in a character list. -/
def hasOccur (pat : List Char) : List Char → Bool
  | [] => pat.isEmpty
  | c :: cs => occursAt pat (c :: cs) || hasOccur pat cs

/-- Model of the Python `pat in s` substring test. -/
def strHasSub (pat s : String) : Bool := hasOccur pat.toList s.toList

/-- Model of Python `str.lower()` (ASCII case folding). -/
def lowerStr (s : String) : String := ⟨s.data.map Char.toLower⟩

/-- Model of Python `str.strip()` (drop whitespace at both ends),
written over the character list so that it evaluates in the kernel. -/
def trimChars (s : String) : String :=
  ⟨((s.data.dropWhile Char.isWhitespace).reverse.dropWhile Char.isWhitespace).reverse⟩

/-- Model of Python `str.split(sep)` for a one-character separator,
written over the character list so that it evaluates in the kernel. -/
def splitChars (sep : Char) : List Char → List (List Char)
  | [] => [[]]
  | c :: cs =>
    if c = sep then [] :: splitChars sep cs
    else
      match splitChars sep cs with
      | [] => [[c]]
      | h :: t => (c :: h) :: t

def splitOnC (sep : Char) (s : String) : List String :=
  (splitChars sep s.data).map (fun l => ⟨l⟩)

/- Argument vectors used by git_operations.py. -/

def addCmd (f : String) : List String := ["git", "add", f]

def commitCmd (msg : String) : List String := ["git", "commit", "-m", msg]

/-- The push issued by `git_add_commit_push` (git_operations.py line 58):
the branch name is the literal string "main". -/
def pushMainCmd : List String := ["git", "push", "origin", "main"]

/-- The push issued by `set_upstream_and_push` (line 88): again the
literal branch name "main". -/
def pushUpstreamCmd : List String := ["git", "push", "--set-upstream", "origin", "main"]

def branchShowCmd : List String := ["git", "branch", "--show-current"]

def logOnelineCmd : List String := ["git", "log", "--oneline", "-1"]

def statusPorcelainCmd : List String := ["git", "status", "--porcelain"]

def remoteGetUrlCmd (name : String) : List String := ["git", "remote", "get-url", name]

def remoteRemoveCmd (name : String) : List String := ["git", "remote", "remove", name]

def remoteAddCmd (name url : String) : List String := ["git", "remote", "add", name, url]

/-- `GitOperations.add_remote` (git_operations.py lines 97-120).
`confirmReplace` is the answer to the `Confirm.ask` replacement prompt.
Returns the boolean result and the trace of invocations issued. -/
def add_remote (env : GitEnv) (confirmReplace : Bool) (remoteUrl remoteName : String) :
    Bool × List (List String) :=
  match env (remoteGetUrlCmd remoteName) with
  | .ok _ =>
    if confirmReplace then
      match env (remoteRemoveCmd remoteName) with
      | .ok _ =>
        let ra := env (remoteAddCmd remoteName remoteUrl)
        (ra.isOk, [remoteGetUrlCmd remoteName, remoteRemoveCmd remoteName,
                   remoteAddCmd remoteName remoteUrl])
      | .err _ =>
        (false, [remoteGetUrlCmd remoteName, remoteRemoveCmd remoteName])
    else
      (false, [remoteGetUrlCmd remoteName])
  | .err _ =>
    let ra := env (remoteAddCmd remoteName remoteUrl)
    (ra.isOk, [remoteGetUrlCmd remoteName, remoteAddCmd remoteName remoteUrl])

/-- `GitOperations.set_upstream_and_push` (lines 84-95): a single push
with `--set-upstream origin main`. -/
def set_upstream_and_push (env : GitEnv) : Bool × List (List String) :=
  ((env pushUpstreamCmd).isOk, [pushUpstreamCmd])

/-- The `git add` loop of `git_add_commit_push` (lines 47-49): adds each
file in order, stopping at the first failure.  Returns the error text of
the failing add (if any) and the trace. -/
def runAdds (env : GitEnv) : List String → Option String × List (List String)
  | [] => (none, [])
  | f :: fs =>
    match env (addCmd f) with
    | .ok _ =>
      let r := runAdds env fs
      (r.1, addCmd f :: r.2)
    | .err m => (some m, [addCmd f])

/-- The main add → commit → push sequence of `git_add_commit_push`
(lines 45-61): each step runs only if the previous one succeeded
(`check=True` raises on failure).  Returns the error text of the first
failing step (if any) and the trace. -/
def mainSeq (env : GitEnv) (files : List String) (msg : String) :
    Option String × List (List String) :=
  match runAdds env files with
  | (some m, tr) => (some m, tr)
  | (none, tr) =>
    match env (commitCmd msg) with
    | .err m => (some m, tr ++ [commitCmd msg])
    | .ok _ =>
      match env pushMainCmd with
      | .err m => (some m, tr ++ [commitCmd msg, pushMainCmd])
      | .ok _ => (none, tr ++ [commitCmd msg, pushMainCmd])

/-- Interactive answers consumed by `git_add_commit_push`'s error
handler (lines 63-79). -/
structure RetryInput where
  confirmUpstream : Bool
  remoteUrl : String
  confirmReplace : Bool
deriving DecidableEq

/-- `GitOperations.git_add_commit_push` (lines 43-82).  On a failure the
handler matches substrings of the lower-cased error text: "no upstream
branch" triggers `set_upstream_and_push` (after confirmation), "no
remote" prompts for a URL, adds the remote, and re-invokes the whole
operation.  The Python re-invocation is unbounded recursion; `fuel`
bounds it in the model (fuel exhaustion returns `false`). -/
def git_add_commit_push (env : GitEnv) (inp : RetryInput) (fuel : Nat)
    (files : List String) (msg : String) : Bool × List (List String) :=
  match mainSeq env files msg with
  | (none, tr) => (true, tr)
  | (some m, tr) =>
    if strHasSub "no upstream branch" (lowerStr m) then
      if inp.confirmUpstream then
        let r := set_upstream_and_push env
        (r.1, tr ++ r.2)
      else (false, tr)
    else if strHasSub "no remote" (lowerStr m) then
      if trimChars inp.remoteUrl ≠ "" then
        let ra := add_remote env inp.confirmReplace (trimChars inp.remoteUrl) "origin"
        if ra.1 then
          match fuel with
          | 0 => (false, tr ++ ra.2)
          | fuel' + 1 =>
            let rr := git_add_commit_push env inp fuel' files msg
            (rr.1, tr ++ ra.2 ++ rr.2)
        else (false, tr ++ ra.2)
      else (false, tr)
    else (false, tr)

/-- The diagnostics record built by `run_git_diagnostics`
(git_operations.py lines 122-190). -/
structure Diagnostics where
  is_git_repo : Bool
  has_remote : Bool
  has_commits : Bool
  current_branch : Option String
  remote_url : Option String
  staged_files : List String
  modified_files : List String
  untracked_files : List String
deriving DecidableEq

/-- The initial diagnostics dictionary (lines 124-133). -/
def initDiagnostics : Diagnostics :=
  ⟨false, false, false, none, none, [], [], []⟩

/-- Environment of a diagnostics run: whether `.git` exists in the fixed
working directory, plus the git subprocess environment. -/
structure DiagEnv where
  isRepo : Bool
  run : GitEnv

/-- Accumulator for the `git status --porcelain` parsing loop. -/
structure StatusAcc where
  staged : List String
  modified : List String
  untracked : List String
deriving DecidableEq

/-- The porcelain parsing loop (lines 172-182).  `status = line[:2]`,
`filename = line[3:]`; the staged check reads `status[0]`, then the
modified check reads `status[1]` — on a line of length 1 that read
raises `IndexError`, which escapes the inner `except
subprocess.CalledProcessError` and is swallowed by the outer `except
Exception`, so the loop stops and the lists accumulated so far are
kept. -/
def parseStatusLines : List String → StatusAcc → StatusAcc
  | [], acc => acc
  | l :: rest, acc =>
    if l = "" then parseStatusLines rest acc
    else
      let cs := l.toList
      let fname := (cs.drop 3).asString
      let acc1 :=
        if cs.headD ' ' ∈ ['M', 'A', 'R', 'C'] then
          { acc with staged := acc.staged ++ [fname] }
        else acc
      match cs[1]? with
      | none => acc1
      | some c1 =>
        let acc2 :=
          if c1 = 'M' then { acc1 with modified := acc1.modified ++ [fname] }
          else acc1
        let acc3 :=
          if cs.take 2 = ['?', '?'] then
            { acc2 with untracked := acc2.untracked ++ [fname] }
          else acc2
        parseStatusLines rest acc3

/-- `GitOperations.run_git_diagnostics` (lines 122-190): each sub-check
is wrapped in its own `try/except subprocess.CalledProcessError`; a
failing sub-check leaves or assigns a default instead of propagating. -/
def run_git_diagnostics (denv : DiagEnv) : Diagnostics :=
  let d0 := { initDiagnostics with is_git_repo := denv.isRepo }
  if denv.isRepo = false then d0
  else
    let d1 :=
      match denv.run branchShowCmd with
      | .ok out => { d0 with current_branch := some (trimChars out) }
      | .err _ => { d0 with current_branch := some "unknown" }
    let d2 :=
      match denv.run (remoteGetUrlCmd "origin") with
      | .ok out => { d1 with has_remote := true, remote_url := some (trimChars out) }
      | .err _ => d1
    let d3 :=
      match denv.run logOnelineCmd with
      | .ok out => { d2 with has_commits := decide (trimChars out ≠ "") }
      | .err _ => d2
    match denv.run statusPorcelainCmd with
    | .ok out =>
      let acc := parseStatusLines (splitOnC '\n' (trimChars out)) ⟨[], [], []⟩
      { d3 with staged_files := acc.staged, modified_files := acc.modified,
                untracked_files := acc.untracked }
    | .err _ => d3

/-- The fixed ordered list of push strategies of `troubleshoot_and_retry`
(lines 265-270); every branch name in it is a literal. -/
def pushStrategies : List (List String) :=
  [pushMainCmd,
   pushUpstreamCmd,
   ["git", "push", "-u", "origin", "main"],
   ["git", "push", "origin", "HEAD"]]

/-- One iteration of the strategy loop (lines 272-292): re-add every
file, re-commit, then run the strategy's push; any failure aborts the
iteration (`except ... continue`). -/
def attemptOnce (env : GitEnv) (files : List String) (msg : String)
    (strat : List String) : Bool × List (List String) :=
  match runAdds env files with
  | (some _, tr) => (false, tr)
  | (none, tr) =>
    match env (commitCmd msg) with
    | .err _ => (false, tr ++ [commitCmd msg])
    | .ok _ =>
      match env strat with
      | .err _ => (false, tr ++ [commitCmd msg, strat])
      | .ok _ => (true, tr ++ [commitCmd msg, strat])

/-- The strategy loop: iterate the list in order, returning at the first
successful iteration; `False` after the list is exhausted. -/
def runStrategies (env : GitEnv) (files : List String) (msg : String) :
    List (List String) → Bool × List (List String)
  | [] => (false, [])
  | s :: rest =>
    let a := attemptOnce env files msg s
    if a.1 then (true, a.2)
    else
      let r := runStrategies env files msg rest
      (r.1, a.2 ++ r.2)

/-- Interactive answers consumed by `troubleshoot_and_retry`'s
pre-loop fixes (lines 245-262). -/
structure TroubleshootInput where
  remoteUrl : String
  confirmReplace : Bool
  confirmInitialCommit : Bool
deriving DecidableEq

/-- Invocations issued by `run_git_diagnostics`: when the directory is a
repository all four probes run (each in its own try), otherwise none. -/
def diagTrace (denv : DiagEnv) : List (List String) :=
  if denv.isRepo then
    [branchShowCmd, remoteGetUrlCmd "origin", logOnelineCmd, statusPorcelainCmd]
  else []

/-- Invocations issued by `troubleshoot_and_retry` before the strategy
loop (lines 241-262): the diagnostics probes, then `add_remote` when no
remote was found and a URL was supplied, then the initial-commit fix
when no commits were found and the user confirmed (the commit runs only
if the `git add .` succeeded). -/
def troubleshootPreTrace (denv : DiagEnv) (inp : TroubleshootInput) :
    List (List String) :=
  let diag := run_git_diagnostics denv
  let a :=
    if diag.has_remote = false ∧ trimChars inp.remoteUrl ≠ "" then
      (add_remote denv.run inp.confirmReplace (trimChars inp.remoteUrl) "origin").2
    else []
  let b :=
    if diag.has_commits = false ∧ inp.confirmInitialCommit then
      match denv.run ["git", "add", "."] with
      | .ok _ => [["git", "add", "."], ["git", "commit", "-m", "Initial commit"]]
      | .err _ => [["git", "add", "."]]
    else []
  diagTrace denv ++ a ++ b

/-- `GitOperations.troubleshoot_and_retry` (lines 237-302): diagnostics,
pre-loop fixes, then the fixed-order strategy loop; the result is the
loop's result (`False` when every strategy failed). -/
def troubleshoot_and_retry (denv : DiagEnv) (inp : TroubleshootInput)
    (files : List String) (msg : String) : Bool × List (List String) :=
  let loop := runStrategies denv.run files msg pushStrategies
  (loop.1, troubleshootPreTrace denv inp ++ loop.2)

/-- An OS call issued by the file operations. -/
inductive OsCall where
  | makedirs (path : String) (existOk : Bool)
  | openWrite (path : String) (content : String)
deriving DecidableEq

/-- Abstract filesystem: existing directories, file contents, and the
trace of OS calls issued (in order). -/
structure FS where
  dirs : List String
  files : List (String × String)
  calls : List OsCall
deriving DecidableEq

/-- Model of `os.path.join` for the paths this program builds. -/
def pathJoin (a b : String) : String :=
  if b.data.headD ' ' = '/' then b
  else if a = "" then b
  else if a.data.getLastD ' ' = '/' then a ++ b
  else a ++ "/" ++ b

/-- Model of `os.makedirs(path, exist_ok=existOk)`: records the OS call;
creating an existing directory fails exactly when `existOk` is false. -/
def osMakedirs (fs : FS) (p : String) (existOk : Bool) : Bool × FS :=
  let fs' := { fs with calls := fs.calls ++ [OsCall.makedirs p existOk] }
  if p ∈ fs.dirs then (existOk, fs')
  else (true, { fs' with dirs := p :: fs'.dirs })

/-- Model of `open(path, 'w')` followed by `write(content)`: records the
OS call and stores the content. -/
def osOpenWrite (fs : FS) (p c : String) : Bool × FS :=
  (true, { fs with calls := fs.calls ++ [OsCall.openWrite p c],
                   files := (p, c) :: fs.files })

/-- Reading a file back from the abstract filesystem. -/
def readFile (fs : FS) (p : String) : Option String := fs.files.lookup p

/-- `FileOperations` instance state: the navigation cursor
(file_operations.py line 19). -/
structure FileOps where
  current_dir : String
deriving DecidableEq

/-- The `default_contents` template table (file_operations.py
lines 20-35), keyed by extension. -/
def defaultContentsTable : List (String × String) :=
  [("js", "console.log(\x27Hello World!\x27);"),
   ("py", "print(\x27Hello World!\x27)"),
   ("go", "package main\n\nimport \"fmt\"\n\nfunc main() \x7b\n    fmt.Println(\"Hello World!\")\n\x7d"),
   ("java", "public class Main \x7b\n    public static void main(String[] args) \x7b\n        System.out.println(\"Hello World!\");\n    \x7d\n\x7d"),
   ("cpp", "#include <iostream>\n\nint main() \x7b\n    std::cout << \"Hello World!\" << std::endl;\n    return 0;\n\x7d"),
   ("c", "#include <stdio.h>\n\nint main() \x7b\n    printf(\"Hello World!\\n\");\n    return 0;\n\x7d"),
   ("html", "<!DOCTYPE html>\n<html>\n<head>\n    <title>Hello</title>\n</head>\n<body>\n    <h1>Hello World!</h1>\n</body>\n</html>"),
   ("css", "body \x7b\n    font-family: Arial, sans-serif;\n    margin: 0;\n    padding: 20px;\n\x7d"),
   ("md", "# Hello World\n\nThis is a markdown file."),
   ("txt", "Hello World!\n\nThis is a text file."),
   ("json", "\x7b\n    \"message\": \"Hello World!\",\n    \"status\": \"success\"\n\x7d"),
   ("xml", "<?xml version=\"1.0\" encoding=\"UTF-8\"?>\n<root>\n    <message>Hello World!</message>\n</root>"),
   ("yml", "message: Hello World!\nstatus: success\n"),
   ("yaml", "message: Hello World!\nstatus: success\n")]

/-- The extension expression `filename.split('.')[-1].lower() if '.' in
filename else ''` (line 55). -/
def extLower (fname : String) : String :=
  if fname.toList.contains '.' then lowerStr ((splitOnC '.' fname).getLastD "")
  else ""

/-- The template lookup `self.default_contents.get(extension, "Hello
World!")` (line 56): exact lookup with the fixed generic greeting as
fallback. -/
def default_contents_get (ext : String) : String :=
  (defaultContentsTable.lookup ext).getD "Hello World!"

/-- The content expression `content or default_content` (line 57):
Python `or` falls back to the template default when `content` is `None`
or the empty string. -/
def fileContentFor (fname : String) (content : Option String) : String :=
  match content with
  | none => default_contents_get (extLower fname)
  | some c => if c = "" then default_contents_get (extLower fname) else c

/-- `FileOperations.create_directory_and_file` (lines 37-67): makedirs
(exist_ok=True) when a directory name is given, reject an empty
filename (unless only a directory was requested), then write the file
with the given or default content. -/
def create_directory_and_file (fops : FileOps) (fs : FS)
    (dirName fname : String) (content : Option String) : Bool × FS :=
  let dirPath := if dirName ≠ "" then pathJoin fops.current_dir dirName
                 else fops.current_dir
  let afterDir : Bool × FS :=
    if dirName ≠ "" then osMakedirs fs dirPath true else (true, fs)
  if afterDir.1 = false then (false, afterDir.2)
  else if fname = "" then
    if dirName ≠ "" then (true, afterDir.2) else (false, afterDir.2)
  else
    osOpenWrite afterDir.2 (pathJoin dirPath fname) (fileContentFor fname content)

/-- `FileOperations.create_file_in_directory` (lines 69-90): reject an
empty filename, then makedirs (exist_ok=True) and write the file. -/
def create_file_in_directory (fops : FileOps) (fs : FS)
    (directory fname : String) (content : Option String) : Bool × FS :=
  if fname = "" then (false, fs)
  else
    let dirPath := pathJoin fops.current_dir directory
    let r := osMakedirs fs dirPath true
    if r.1 = false then (false, r.2)
    else osOpenWrite r.2 (pathJoin dirPath fname) (fileContentFor fname content)

/-- Combined application state: `GitOperations.current_dir` is set once
from `os.getcwd()` at construction (git_operations.py lines 18-19) and
never reassigned anywhere in the class; `FileOperations.current_dir` is
the navigation cursor. -/
structure AppState where
  gitDir : String
  fileDir : String
deriving DecidableEq

/-- `CLIInterface.__init__` (cli_interface.py lines 20-22) constructs
both gateways in the same process working directory. -/
def initApp (cwd : String) : AppState := ⟨cwd, cwd⟩

/-- A navigation step the presentation layer can trigger. -/
inductive NavStep where
  | changeDir (d : String)
  | goParent

/-- Path predicates/functions supplied by the OS
(`os.path.isdir`, `os.path.abspath`, `os.path.dirname`). -/
structure NavEnv where
  isDir : String → Bool
  abspath : String → String
  dirname : String → String

/-- `FileOperations.change_directory` (file_operations.py lines
158-169): mutates only the FileOperations cursor. -/
def change_directory (env : NavEnv) (s : AppState) (d : String) : AppState :=
  let newPath := pathJoin s.fileDir d
  if env.isDir newPath then { s with fileDir := env.abspath newPath } else s

/-- `FileOperations.go_to_parent_directory` (lines 171-178): mutates
only the FileOperations cursor. -/
def go_to_parent_directory (env : NavEnv) (s : AppState) : AppState :=
  let parent := env.dirname s.fileDir
  if parent ≠ s.fileDir then { s with fileDir := parent } else s

/-- A sequence of navigation steps. -/
def applyNav (env : NavEnv) : List NavStep → AppState → AppState
  | [], s => s
  | .changeDir d :: r, s => applyNav env r (change_directory env s d)
  | .goParent :: r, s => applyNav env r (go_to_parent_directory env s)

/-- Every git subprocess call passes `cwd=self.current_dir` of
`GitOperations`: the invocations of a batch of commands are all issued
at the gateway's fixed directory. -/
def gitInvocations (s : AppState) (cmds : List (List String)) :
    List (String × List String) :=
  cmds.map (fun c => (s.gitDir, c))

/-! ### Helper lemmas -/

/-- Recognizer for push invocations. -/
def isPushCmd (c : List String) : Bool := decide (c.take 2 = ["git", "push"])

/-- The push invocations inside a trace, in order. -/
def pushesIn (tr : List (List String)) : List (List String) := tr.filter isPushCmd

lemma isPushCmd_addCmd (f : String) : isPushCmd (addCmd f) = false := by
  have h : (addCmd f).take 2 = ["git", "add"] := rfl
  rw [isPushCmd, h]; decide

lemma isPushCmd_commitCmd (m : String) : isPushCmd (commitCmd m) = false := by
  have h : (commitCmd m).take 2 = ["git", "commit"] := rfl
  rw [isPushCmd, h]; decide

lemma runAdds_ok (env : GitEnv) (files : List String)
    (h : ∀ f ∈ files, (env (addCmd f)).isOk = true) :
    runAdds env files = (none, files.map addCmd) := by
  induction files with
  | nil => rfl
  | cons f fs ih =>
    have hf := h f (List.mem_cons_self f fs)
    cases henv : env (addCmd f) with
    | ok out =>
      have hrest := ih (fun g hg => h g (List.mem_cons_of_mem f hg))
      simp [runAdds, henv, hrest]
    | err m => rw [henv] at hf; simp [CmdRes.isOk] at hf

lemma runAdds_err (env : GitEnv) (pre : List String) (f : String)
    (post : List String) (m : String)
    (hpre : ∀ g ∈ pre, (env (addCmd g)).isOk = true)
    (hf : env (addCmd f) = .err m) :
    runAdds env (pre ++ f :: post) = (some m, pre.map addCmd ++ [addCmd f]) := by
  induction pre with
  | nil => simp [runAdds, hf]
  | cons g gs ih =>
    have hg := hpre g (List.mem_cons_self g gs)
    cases henv : env (addCmd g) with
    | ok out =>
      have hrest := ih (fun x hx => hpre x (List.mem_cons_of_mem g hx))
      simp [runAdds, henv, hrest]
    | err m' => rw [henv] at hg; simp [CmdRes.isOk] at hg

lemma mainSeq_all_ok (env : GitEnv) (files : List String) (msg : String)
    (ha : ∀ f ∈ files, (env (addCmd f)).isOk = true)
    (hc : (env (commitCmd msg)).isOk = true)
    (hp : (env pushMainCmd).isOk = true) :
    mainSeq env files msg = (none, files.map addCmd ++ [commitCmd msg, pushMainCmd]) := by
  rw [mainSeq, runAdds_ok env files ha]
  cases hcommit : env (commitCmd msg) with
  | err m => rw [hcommit] at hc; simp [CmdRes.isOk] at hc
  | ok c =>
    cases hpush : env pushMainCmd with
    | err m => rw [hpush] at hp; simp [CmdRes.isOk] at hp
    | ok p => simp

lemma mainSeq_commit_err (env : GitEnv) (files : List String) (msg m : String)
    (ha : ∀ f ∈ files, (env (addCmd f)).isOk = true)
    (hc : env (commitCmd msg) = .err m) :
    mainSeq env files msg = (some m, files.map addCmd ++ [commitCmd msg]) := by
  rw [mainSeq, runAdds_ok env files ha, hc]

lemma mainSeq_add_err (env : GitEnv) (pre : List String) (f : String)
    (post : List String) (msg m : String)
    (hpre : ∀ g ∈ pre, (env (addCmd g)).isOk = true)
    (hf : env (addCmd f) = .err m) :
    mainSeq env (pre ++ f :: post) msg = (some m, pre.map addCmd ++ [addCmd f]) := by
  rw [mainSeq, runAdds_err env pre f post m hpre hf]

lemma gacp_of_mainSeq_none (env : GitEnv) (inp : RetryInput) (fuel : Nat)
    (files : List String) (msg : String) (tr : List (List String))
    (hm : mainSeq env files msg = (none, tr)) :
    git_add_commit_push env inp fuel files msg = (true, tr) := by
  rw [git_add_commit_push, hm]

lemma gacp_of_mainSeq_err_unclassified (env : GitEnv) (inp : RetryInput)
    (fuel : Nat) (files : List String) (msg m : String) (tr : List (List String))
    (hm : mainSeq env files msg = (some m, tr))
    (h1 : strHasSub "no upstream branch" (lowerStr m) = false)
    (h2 : strHasSub "no remote" (lowerStr m) = false) :
    git_add_commit_push env inp fuel files msg = (false, tr) := by
  rw [git_add_commit_push, hm]
  simp [h1, h2]

lemma runAdds_trace_mem (env : GitEnv) :
    ∀ (files : List String) (c : List String),
      c ∈ (runAdds env files).2 → c ∈ files.map addCmd := by
  intro files
  induction files with
  | nil => intro c hc; simp [runAdds] at hc
  | cons f fs ih =>
    intro c hc
    cases henv : env (addCmd f) with
    | ok out =>
      rw [runAdds, henv] at hc
      simp only [List.mem_cons] at hc
      rcases hc with rfl | hc
      · simp
      · simpa using Or.inr (ih c hc)
    | err m =>
      rw [runAdds, henv] at hc
      simp at hc
      simp [hc]

lemma mainSeq_trace_mem (env : GitEnv) (files : List String) (msg : String)
    (c : List String) (hc : c ∈ (mainSeq env files msg).2) :
    c ∈ files.map addCmd ∨ c = commitCmd msg ∨ c = pushMainCmd := by
  rcases hr : runAdds env files with ⟨o, tr⟩
  have htr : ∀ d, d ∈ tr → d ∈ files.map addCmd := by
    intro d hd; exact runAdds_trace_mem env files d (by rw [hr]; exact hd)
  cases o with
  | some m =>
    rw [mainSeq, hr] at hc
    exact Or.inl (htr c hc)
  | none =>
    rw [mainSeq, hr] at hc
    cases hcommit : env (commitCmd msg) with
    | err m =>
      rw [hcommit] at hc
      simp only [List.mem_append, List.mem_singleton] at hc
      rcases hc with hc | rfl
      · exact Or.inl (htr c hc)
      · exact Or.inr (Or.inl rfl)
    | ok out =>
      rw [hcommit] at hc
      cases hpush : env pushMainCmd with
      | err m =>
        rw [hpush] at hc
        simp only [List.mem_append, List.mem_cons, List.mem_singleton,
          List.not_mem_nil, or_false] at hc
        rcases hc with hc | rfl | rfl
        · exact Or.inl (htr c hc)
        · exact Or.inr (Or.inl rfl)
        · exact Or.inr (Or.inr rfl)
      | ok p =>
        rw [hpush] at hc
        simp only [List.mem_append, List.mem_cons, List.mem_singleton,
          List.not_mem_nil, or_false] at hc
        rcases hc with hc | rfl | rfl
        · exact Or.inl (htr c hc)
        · exact Or.inr (Or.inl rfl)
        · exact Or.inr (Or.inr rfl)

lemma add_remote_trace_mem (env : GitEnv) (cr : Bool) (url name : String)
    (c : List String) (hc : c ∈ (add_remote env cr url name).2) :
    c = remoteGetUrlCmd name ∨ c = remoteRemoveCmd name ∨ c = remoteAddCmd name url := by
  rw [add_remote] at hc
  cases hg : env (remoteGetUrlCmd name) with
  | ok out =>
    rw [hg] at hc
    by_cases hcr : cr
    · simp only [hcr, if_true] at hc
      cases hrm : env (remoteRemoveCmd name) with
      | ok o2 => rw [hrm] at hc; simp at hc; tauto
      | err m2 => rw [hrm] at hc; simp at hc; tauto
    · simp only [hcr, if_false] at hc
      simp at hc; tauto
  | err m =>
    rw [hg] at hc
    simp at hc; tauto

lemma gacp_trace_mem (env : GitEnv) (inp : RetryInput) :
    ∀ (fuel : Nat) (files : List String) (msg : String) (c : List String),
      c ∈ (git_add_commit_push env inp fuel files msg).2 →
      c ∈ files.map addCmd ∨ c = commitCmd msg ∨ c = pushMainCmd ∨
        c = pushUpstreamCmd ∨ c = remoteGetUrlCmd "origin" ∨
        c = remoteRemoveCmd "origin" ∨ c = remoteAddCmd "origin" (trimChars inp.remoteUrl) := by
  intro fuel
  induction fuel with
  | zero =>
    intro files msg c hc
    rw [git_add_commit_push] at hc
    rcases hm : mainSeq env files msg with ⟨o, tr⟩
    have htr : ∀ d, d ∈ tr → d ∈ files.map addCmd ∨ d = commitCmd msg ∨ d = pushMainCmd := by
      intro d hd; exact mainSeq_trace_mem env files msg d (by rw [hm]; exact hd)
    rw [hm] at hc
    cases o with
    | none => rcases htr c hc with h | h | h <;> tauto
    | some m =>
      simp only at hc
      split at hc
      · split at hc
        · simp only [set_upstream_and_push, List.mem_append, List.mem_singleton] at hc
          rcases hc with hc | rfl
          · rcases htr c hc with h | h | h <;> tauto
          · tauto
        · rcases htr c hc with h | h | h <;> tauto
      · split at hc
        · split at hc
          · split at hc
            · dsimp only at hc
              simp only [List.mem_append] at hc
              rcases hc with hc | hc
              · rcases htr c hc with h | h | h <;> tauto
              · rcases add_remote_trace_mem env inp.confirmReplace
                  (trimChars inp.remoteUrl) "origin" c hc with h | h | h <;> tauto
            · dsimp only at hc
              simp only [List.mem_append] at hc
              rcases hc with hc | hc
              · rcases htr c hc with h | h | h <;> tauto
              · rcases add_remote_trace_mem env inp.confirmReplace
                  (trimChars inp.remoteUrl) "origin" c hc with h | h | h <;> tauto
          · rcases htr c hc with h | h | h <;> tauto
        · rcases htr c hc with h | h | h <;> tauto
  | succ n ih =>
    intro files msg c hc
    rw [git_add_commit_push] at hc
    rcases hm : mainSeq env files msg with ⟨o, tr⟩
    have htr : ∀ d, d ∈ tr → d ∈ files.map addCmd ∨ d = commitCmd msg ∨ d = pushMainCmd := by
      intro d hd; exact mainSeq_trace_mem env files msg d (by rw [hm]; exact hd)
    rw [hm] at hc
    cases o with
    | none => rcases htr c hc with h | h | h <;> tauto
    | some m =>
      simp only at hc
      split at hc
      · split at hc
        · simp only [set_upstream_and_push, List.mem_append, List.mem_singleton] at hc
          rcases hc with hc | rfl
          · rcases htr c hc with h | h | h <;> tauto
          · tauto
        · rcases htr c hc with h | h | h <;> tauto
      · split at hc
        · split at hc
          · split at hc
            · dsimp only at hc
              simp only [List.mem_append] at hc
              rcases hc with (hc | hc) | hc
              · rcases htr c hc with h | h | h <;> tauto
              · rcases add_remote_trace_mem env inp.confirmReplace
                  (trimChars inp.remoteUrl) "origin" c hc with h | h | h <;> tauto
              · exact ih files msg c hc
            · dsimp only at hc
              simp only [List.mem_append] at hc
              rcases hc with hc | hc
              · rcases htr c hc with h | h | h <;> tauto
              · rcases add_remote_trace_mem env inp.confirmReplace
                  (trimChars inp.remoteUrl) "origin" c hc with h | h | h <;> tauto
          · rcases htr c hc with h | h | h <;> tauto
        · rcases htr c hc with h | h | h <;> tauto

/-- Strategies attempted by the loop: the given order up to and
including the first success. -/
def upToFirstOk (env : GitEnv) : List (List String) → List (List String)
  | [] => []
  | s :: rest => if (env s).isOk then [s] else s :: upToFirstOk env rest

lemma attemptOnce_spec (env : GitEnv) (files : List String) (msg : String)
    (s : List String)
    (ha : ∀ f ∈ files, (env (addCmd f)).isOk = true)
    (hc : (env (commitCmd msg)).isOk = true) :
    attemptOnce env files msg s =
      ((env s).isOk, files.map addCmd ++ [commitCmd msg, s]) := by
  rw [attemptOnce, runAdds_ok env files ha]
  cases hcommit : env (commitCmd msg) with
  | err m => rw [hcommit] at hc; simp [CmdRes.isOk] at hc
  | ok out =>
    cases hs : env s with
    | ok p => simp [hs, CmdRes.isOk]
    | err m => simp [hs, CmdRes.isOk]

lemma runStrategies_spec (env : GitEnv) (files : List String) (msg : String)
    (ha : ∀ f ∈ files, (env (addCmd f)).isOk = true)
    (hc : (env (commitCmd msg)).isOk = true) :
    ∀ strats, runStrategies env files msg strats =
      ((strats.any fun s => (env s).isOk),
       (upToFirstOk env strats).flatMap fun s => files.map addCmd ++ [commitCmd msg, s]) := by
  intro strats
  induction strats with
  | nil => simp [runStrategies, upToFirstOk]
  | cons s rest ih =>
    rw [runStrategies, attemptOnce_spec env files msg s ha hc]
    by_cases hs : (env s).isOk = true
    · simp [hs, upToFirstOk]
    · have hs' : (env s).isOk = false := by
        cases h : (env s).isOk
        · rfl
        · exact absurd h hs
      simp [hs', upToFirstOk, ih]

lemma upToFirstOk_sublist (env : GitEnv) :
    ∀ l : List (List String), List.Sublist (upToFirstOk env l) l := by
  intro l
  induction l with
  | nil => simp [upToFirstOk]
  | cons s rest ih =>
    rw [upToFirstOk]
    by_cases hs : (env s).isOk = true
    · simp only [hs, if_true]
      exact (List.nil_sublist rest).cons₂ s
    · have hs' : (env s).isOk = false := by
        cases h : (env s).isOk
        · rfl
        · exact absurd h hs
      simp only [hs', Bool.false_eq_true, if_false]
      exact ih.cons₂ s

lemma upToFirstOk_of_all_fail (env : GitEnv) :
    ∀ l : List (List String), (∀ s ∈ l, (env s).isOk = false) →
      upToFirstOk env l = l := by
  intro l
  induction l with
  | nil => simp [upToFirstOk]
  | cons s rest ih =>
    intro h
    rw [upToFirstOk]
    have hs := h s (List.mem_cons_self s rest)
    simp only [hs, Bool.false_eq_true, if_false]
    rw [ih (fun x hx => h x (List.mem_cons_of_mem s hx))]

lemma pushesIn_map_addCmd (files : List String) :
    pushesIn (files.map addCmd) = [] := by
  rw [pushesIn, List.filter_eq_nil_iff]
  intro c hcmem
  rcases List.mem_map.mp hcmem with ⟨f, _, rfl⟩
  simp [isPushCmd_addCmd]

lemma pushesIn_flatMap_iter (files : List String) (msg : String) :
    ∀ l : List (List String), (∀ s ∈ l, isPushCmd s = true) →
      pushesIn (l.flatMap fun s => files.map addCmd ++ [commitCmd msg, s]) = l := by
  intro l
  induction l with
  | nil => simp [pushesIn]
  | cons s rest ih =>
    intro h
    have hs := h s (List.mem_cons_self s rest)
    have hrest := ih (fun x hx => h x (List.mem_cons_of_mem s hx))
    rw [List.flatMap_cons]
    rw [pushesIn, List.filter_append, ← pushesIn, ← pushesIn, hrest]
    rw [pushesIn, List.filter_append, ← pushesIn, pushesIn_map_addCmd]
    simp [pushesIn, isPushCmd_commitCmd, hs]

lemma pushStrategies_all_push : ∀ s ∈ pushStrategies, isPushCmd s = true := by
  decide

lemma pushStrategies_nodup : pushStrategies.Nodup := by decide

lemma troubleshootPreTrace_not_push (denv : DiagEnv) (inp : TroubleshootInput) :
    ∀ c ∈ troubleshootPreTrace denv inp, isPushCmd c = false := by
  intro c hc
  rw [troubleshootPreTrace] at hc
  simp only [List.mem_append] at hc
  rcases hc with (hc | hc) | hc
  · rw [diagTrace] at hc
    by_cases hrepo : denv.isRepo = true
    · simp only [hrepo, if_true, List.mem_cons, List.not_mem_nil, or_false] at hc
      rcases hc with rfl | rfl | rfl | rfl <;> decide
    · simp only [Bool.not_eq_true] at hrepo
      simp [hrepo] at hc
  · split at hc
    · rcases add_remote_trace_mem denv.run inp.confirmReplace
        (trimChars inp.remoteUrl) "origin" c hc with rfl | rfl | rfl
      · decide
      · decide
      · have h : (remoteAddCmd "origin" (trimChars inp.remoteUrl)).take 2 = ["git", "remote"] := rfl
        rw [isPushCmd, h]; decide
    · simp at hc
  · split at hc
    · split at hc
      · simp only [List.mem_cons, List.not_mem_nil, or_false] at hc
        rcases hc with rfl | rfl <;> decide
      · simp only [List.mem_cons, List.not_mem_nil, or_false] at hc
        rcases hc with rfl
        decide
    · simp at hc

lemma pushesIn_preTrace (denv : DiagEnv) (inp : TroubleshootInput) :
    pushesIn (troubleshootPreTrace denv inp) = [] := by
  rw [pushesIn, List.filter_eq_nil_iff]
  intro c hc
  simp [troubleshootPreTrace_not_push denv inp c hc]

lemma attemptOnce_trace_mem (env : GitEnv) (files : List String) (msg : String)
    (s : List String) (c : List String)
    (hc : c ∈ (attemptOnce env files msg s).2) :
    c ∈ files.map addCmd ∨ c = commitCmd msg ∨ c = s := by
  rw [attemptOnce] at hc
  rcases hr : runAdds env files with ⟨o, tr⟩
  have htr : ∀ d, d ∈ tr → d ∈ files.map addCmd := by
    intro d hd; exact runAdds_trace_mem env files d (by rw [hr]; exact hd)
  rw [hr] at hc
  cases o with
  | some m => exact Or.inl (htr c hc)
  | none =>
    cases hcommit : env (commitCmd msg) with
    | err m =>
      rw [hcommit] at hc
      simp only [List.mem_append, List.mem_singleton] at hc
      rcases hc with hc | rfl
      · exact Or.inl (htr c hc)
      · exact Or.inr (Or.inl rfl)
    | ok out =>
      rw [hcommit] at hc
      cases hs : env s with
      | err m =>
        rw [hs] at hc
        simp only [List.mem_append, List.mem_cons, List.not_mem_nil, or_false] at hc
        rcases hc with hc | rfl | rfl
        · exact Or.inl (htr c hc)
        · exact Or.inr (Or.inl rfl)
        · exact Or.inr (Or.inr rfl)
      | ok p =>
        rw [hs] at hc
        simp only [List.mem_append, List.mem_cons, List.not_mem_nil, or_false] at hc
        rcases hc with hc | rfl | rfl
        · exact Or.inl (htr c hc)
        · exact Or.inr (Or.inl rfl)
        · exact Or.inr (Or.inr rfl)

lemma runStrategies_trace_mem (env : GitEnv) (files : List String) (msg : String) :
    ∀ (strats : List (List String)) (c : List String),
      c ∈ (runStrategies env files msg strats).2 →
      c ∈ strats ∨ c ∈ files.map addCmd ∨ c = commitCmd msg := by
  intro strats
  induction strats with
  | nil => intro c hc; simp [runStrategies] at hc
  | cons s rest ih =>
    intro c hc
    rw [runStrategies] at hc
    split at hc
    · dsimp only at hc
      rcases attemptOnce_trace_mem env files msg s c hc with h | h | h
      · tauto
      · tauto
      · exact Or.inl (by simp [h])
    · dsimp only at hc
      simp only [List.mem_append] at hc
      rcases hc with hc | hc
      · rcases attemptOnce_trace_mem env files msg s c hc with h | h | h
        · tauto
        · tauto
        · exact Or.inl (by simp [h])
      · rcases ih c hc with h | h | h
        · exact Or.inl (List.mem_cons_of_mem s h)
        · tauto
        · tauto

lemma applyNav_gitDir (env : NavEnv) :
    ∀ (steps : List NavStep) (s : AppState),
      (applyNav env steps s).gitDir = s.gitDir := by
  intro steps
  induction steps with
  | nil => intro s; rfl
  | cons st rest ih =>
    intro s
    cases st with
    | changeDir d =>
      rw [applyNav, ih]
      rw [change_directory]
      split <;> rfl
    | goParent =>
      rw [applyNav, ih]
      rw [go_to_parent_directory]
      split <;> rfl

/-! ### Small disequalities between argument vectors -/

lemma pushMainCmd_ne_addCmd (f : String) : pushMainCmd ≠ addCmd f := by
  simp [pushMainCmd, addCmd]

lemma pushUpstreamCmd_ne_addCmd (f : String) : pushUpstreamCmd ≠ addCmd f := by
  simp [pushUpstreamCmd, addCmd]

lemma pushMainCmd_ne_commitCmd (m : String) : pushMainCmd ≠ commitCmd m := by
  simp [pushMainCmd, commitCmd]

lemma pushUpstreamCmd_ne_commitCmd (m : String) : pushUpstreamCmd ≠ commitCmd m := by
  simp [pushUpstreamCmd, commitCmd]

lemma commitCmd_ne_addCmd (msg f : String) : commitCmd msg ≠ addCmd f := by
  simp [commitCmd, addCmd]

lemma pushMainCmd_not_mem_stopped (files : List String) (msg : String) :
    pushMainCmd ∉ files.map addCmd ++ [commitCmd msg] := by
  intro h
  rcases List.mem_append.mp h with h | h
  · rcases List.mem_map.mp h with ⟨f, _, hf⟩
    exact pushMainCmd_ne_addCmd f hf.symm
  · exact pushMainCmd_ne_commitCmd msg (List.mem_singleton.mp h)

lemma pushUpstreamCmd_not_mem_stopped (files : List String) (msg : String) :
    pushUpstreamCmd ∉ files.map addCmd ++ [commitCmd msg] := by
  intro h
  rcases List.mem_append.mp h with h | h
  · rcases List.mem_map.mp h with ⟨f, _, hf⟩
    exact pushUpstreamCmd_ne_addCmd f hf.symm
  · exact pushUpstreamCmd_ne_commitCmd msg (List.mem_singleton.mp h)

lemma commitCmd_not_mem_adds (pre : List String) (f msg : String) :
    commitCmd msg ∉ pre.map addCmd ++ [addCmd f] := by
  intro h
  rcases List.mem_append.mp h with h | h
  · rcases List.mem_map.mp h with ⟨g, _, hg⟩
    exact commitCmd_ne_addCmd msg g hg.symm
  · exact commitCmd_ne_addCmd msg f (List.mem_singleton.mp h)

lemma pushMainCmd_not_mem_adds (pre : List String) (f : String) :
    pushMainCmd ∉ pre.map addCmd ++ [addCmd f] := by
  intro h
  rcases List.mem_append.mp h with h | h
  · rcases List.mem_map.mp h with ⟨g, _, hg⟩
    exact pushMainCmd_ne_addCmd g hg.symm
  · exact pushMainCmd_ne_addCmd f (List.mem_singleton.mp h)

/-! ### Claim theorems -/

/-- C4: `git_add_commit_push` executes add, then commit, then push as
three sequential steps, and the first failing step short-circuits the
rest; in particular, when nothing is staged the commit step fails (its
message matches none of the retry substrings) and the push command is
never invoked. -/
theorem git_add_commit_push_stage_order (env : GitEnv) (inp : RetryInput)
    (fuel : Nat) (files : List String) (msg : String) :
    ((∀ f ∈ files, (env (addCmd f)).isOk = true) →
        (env (commitCmd msg)).isOk = true → (env pushMainCmd).isOk = true →
        git_add_commit_push env inp fuel files msg =
          (true, files.map addCmd ++ [commitCmd msg, pushMainCmd]))
    ∧ (∀ (pre : List String) (f : String) (post : List String) (m : String),
        files = pre ++ f :: post →
        (∀ g ∈ pre, (env (addCmd g)).isOk = true) →
        env (addCmd f) = CmdRes.err m →
        strHasSub "no upstream branch" (lowerStr m) = false →
        strHasSub "no remote" (lowerStr m) = false →
        git_add_commit_push env inp fuel files msg =
          (false, pre.map addCmd ++ [addCmd f]) ∧
        commitCmd msg ∉ pre.map addCmd ++ [addCmd f] ∧
        pushMainCmd ∉ pre.map addCmd ++ [addCmd f])
    ∧ (∀ m : String,
        (∀ f ∈ files, (env (addCmd f)).isOk = true) →
        env (commitCmd msg) = CmdRes.err m →
        strHasSub "no upstream branch" (lowerStr m) = false →
        strHasSub "no remote" (lowerStr m) = false →
        git_add_commit_push env inp fuel files msg =
          (false, files.map addCmd ++ [commitCmd msg]) ∧
        pushMainCmd ∉ files.map addCmd ++ [commitCmd msg] ∧
        pushUpstreamCmd ∉ files.map addCmd ++ [commitCmd msg]) := by
  refine ⟨?_, ?_, ?_⟩
  · intro ha hc hp
    exact gacp_of_mainSeq_none env inp fuel files msg _
      (mainSeq_all_ok env files msg ha hc hp)
  · intro pre f post m hfiles hpre hf h1 h2
    subst hfiles
    refine ⟨?_, commitCmd_not_mem_adds pre f msg, pushMainCmd_not_mem_adds pre f⟩
    exact gacp_of_mainSeq_err_unclassified env inp fuel _ msg m _
      (mainSeq_add_err env pre f post msg m hpre hf) h1 h2
  · intro m ha hcerr h1 h2
    refine ⟨?_, pushMainCmd_not_mem_stopped files msg,
      pushUpstreamCmd_not_mem_stopped files msg⟩
    exact gacp_of_mainSeq_err_unclassified env inp fuel files msg m _
      (mainSeq_commit_err env files msg m ha hcerr) h1 h2

/-- Environment of the C4 witness: every add succeeds, the commit fails
with git's "nothing to commit" message. -/
def envC4 : GitEnv := fun c =>
  if c = commitCmd "Update files" then
    CmdRes.err "nothing to commit, working tree clean"
  else CmdRes.ok ""

/-- Witness for C4: concrete run in which the staged set is empty, the
commit stage fails, and the push command is never issued. -/
theorem git_add_commit_push_stage_order_witness :
    (∀ f ∈ ["solution.py"], (envC4 (addCmd f)).isOk = true) ∧
    envC4 (commitCmd "Update files") =
      CmdRes.err "nothing to commit, working tree clean" ∧
    strHasSub "no upstream branch"
      (lowerStr "nothing to commit, working tree clean") = false ∧
    strHasSub "no remote"
      (lowerStr "nothing to commit, working tree clean") = false ∧
    (git_add_commit_push envC4 ⟨false, "", false⟩ 2 ["solution.py"] "Update files" =
       (false, List.map addCmd ["solution.py"] ++ [commitCmd "Update files"]) ∧
     pushMainCmd ∉ List.map addCmd ["solution.py"] ++ [commitCmd "Update files"] ∧
     pushUpstreamCmd ∉ List.map addCmd ["solution.py"] ++ [commitCmd "Update files"]) := by
  refine ⟨by decide, by decide, by decide, by decide, ?_⟩
  exact (git_add_commit_push_stage_order envC4 ⟨false, "", false⟩ 2
      ["solution.py"] "Update files").2.2
    "nothing to commit, working tree clean" (by decide) (by decide)
    (by decide) (by decide)

/-- Environment of the C1 counterexample: the repository's current
branch is "dev" (a `git branch --show-current` query would answer
"dev"), and every command succeeds. -/
def envC1 : GitEnv := fun c =>
  if c = branchShowCmd then CmdRes.ok "dev" else CmdRes.ok ""

/-- Counterexample to C1: with the current branch "dev", the publish
pipeline pushes to `origin main` — a guessed, hard-coded branch name —
never consults `git branch --show-current`, and never pushes to
`origin dev`. -/
theorem push_targets_counterexample :
    envC1 branchShowCmd = CmdRes.ok "dev" ∧
    git_add_commit_push envC1 ⟨false, "", false⟩ 2 ["a.py"] "Update files" =
      (true, [addCmd "a.py", commitCmd "Update files", pushMainCmd]) ∧
    pushMainCmd = ["git", "push", "origin", "main"] ∧
    ["git", "push", "origin", "dev"] ∉
      [addCmd "a.py", commitCmd "Update files", pushMainCmd] ∧
    branchShowCmd ∉ [addCmd "a.py", commitCmd "Update files", pushMainCmd] := by
  refine ⟨by decide, ?_, by decide, by decide, by decide⟩
  decide

/-- C1 (amended): every push issued by `git_add_commit_push` targets a
hard-coded invocation (`push origin main` or `push --set-upstream
origin main`), the branch query is never issued by it, and every push
issued by `troubleshoot_and_retry` is one of the four fixed strategy
invocations; `currentBranch()` is never used to select a push target
and no NoBranch failure exists. -/
theorem push_targets_hardcoded_main :
    (∀ (fuel : Nat) (env : GitEnv) (inp : RetryInput) (files : List String)
        (msg : String) (c : List String),
        c ∈ (git_add_commit_push env inp fuel files msg).2 →
        isPushCmd c = true → c = pushMainCmd ∨ c = pushUpstreamCmd)
    ∧ (∀ (fuel : Nat) (env : GitEnv) (inp : RetryInput) (files : List String)
        (msg : String),
        branchShowCmd ∉ (git_add_commit_push env inp fuel files msg).2)
    ∧ (∀ (denv : DiagEnv) (inp : TroubleshootInput) (files : List String)
        (msg : String) (c : List String),
        c ∈ (troubleshoot_and_retry denv inp files msg).2 →
        isPushCmd c = true → c ∈ pushStrategies) := by
  refine ⟨?_, ?_, ?_⟩
  · intro fuel env inp files msg c hc hp
    rcases gacp_trace_mem env inp fuel files msg c hc with h | h | h | h | h | h | h
    · rcases List.mem_map.mp h with ⟨f, _, rfl⟩
      simp [isPushCmd_addCmd] at hp
    · subst h; simp [isPushCmd_commitCmd] at hp
    · exact Or.inl h
    · exact Or.inr h
    · subst h; exact absurd hp (by decide)
    · subst h; exact absurd hp (by decide)
    · subst h
      rw [isPushCmd,
        show (remoteAddCmd "origin" (trimChars inp.remoteUrl)).take 2 = ["git", "remote"]
          from rfl] at hp
      exact absurd hp (by decide)
  · intro fuel env inp files msg h
    rcases gacp_trace_mem env inp fuel files msg branchShowCmd h
      with h | h | h | h | h | h | h
    · rcases List.mem_map.mp h with ⟨f, _, hf⟩
      simp [addCmd, branchShowCmd] at hf
    · simp [branchShowCmd, commitCmd] at h
    · exact absurd h (by decide)
    · exact absurd h (by decide)
    · exact absurd h (by decide)
    · exact absurd h (by decide)
    · simp [branchShowCmd, remoteAddCmd] at h
  · intro denv inp files msg c hc hp
    have htr : (troubleshoot_and_retry denv inp files msg).2 =
        troubleshootPreTrace denv inp ++
          (runStrategies denv.run files msg pushStrategies).2 := rfl
    rw [htr] at hc
    rcases List.mem_append.mp hc with hc | hc
    · simp [troubleshootPreTrace_not_push denv inp c hc] at hp
    · rcases runStrategies_trace_mem denv.run files msg pushStrategies c hc
        with h | h | h
      · exact h
      · rcases List.mem_map.mp h with ⟨f, _, rfl⟩
        simp [isPushCmd_addCmd] at hp
      · subst h; simp [isPushCmd_commitCmd] at hp

/-- Witness for the amended C1: a concrete run in which the lone push
in the trace is classified by the theorem as one of the two hard-coded
invocations. -/
theorem push_targets_hardcoded_main_witness :
    pushMainCmd ∈
      (git_add_commit_push envC1 ⟨false, "", false⟩ 2 ["a.py"] "Update files").2 ∧
    isPushCmd pushMainCmd = true ∧
    (pushMainCmd = pushMainCmd ∨ pushMainCmd = pushUpstreamCmd) := by
  refine ⟨by decide, by decide, ?_⟩
  exact push_targets_hardcoded_main.1 2 envC1 ⟨false, "", false⟩ ["a.py"]
    "Update files" pushMainCmd (by decide) (by decide)

/-- C3: in the enhanced retry mode the alternative push strategies are
tried in exactly the fixed documented order, with the target re-staged
and re-committed before each attempt; iteration stops at the first
success, each strategy is attempted at most once, and when all N
strategies fail exactly N push attempts are recorded before the final
failure is reported. -/
theorem troubleshoot_strategy_order (denv : DiagEnv) (inp : TroubleshootInput)
    (files : List String) (msg : String)
    (ha : ∀ f ∈ files, (denv.run (addCmd f)).isOk = true)
    (hc : (denv.run (commitCmd msg)).isOk = true) :
    troubleshoot_and_retry denv inp files msg =
      ((pushStrategies.any fun s => (denv.run s).isOk),
       troubleshootPreTrace denv inp ++
         ((upToFirstOk denv.run pushStrategies).flatMap fun s =>
           files.map addCmd ++ [commitCmd msg, s]))
    ∧ pushesIn (troubleshoot_and_retry denv inp files msg).2 =
        upToFirstOk denv.run pushStrategies
    ∧ List.Sublist (upToFirstOk denv.run pushStrategies) pushStrategies
    ∧ (upToFirstOk denv.run pushStrategies).Nodup
    ∧ ((troubleshoot_and_retry denv inp files msg).1 = true ↔
        ∃ s ∈ pushStrategies, (denv.run s).isOk = true)
    ∧ ((∀ s ∈ pushStrategies, (denv.run s).isOk = false) →
        (troubleshoot_and_retry denv inp files msg).1 = false ∧
        (pushesIn (troubleshoot_and_retry denv inp files msg).2).length =
          pushStrategies.length) := by
  have hpair : troubleshoot_and_retry denv inp files msg =
      ((pushStrategies.any fun s => (denv.run s).isOk),
       troubleshootPreTrace denv inp ++
         ((upToFirstOk denv.run pushStrategies).flatMap fun s =>
           files.map addCmd ++ [commitCmd msg, s])) := by
    show ((runStrategies denv.run files msg pushStrategies).1,
          troubleshootPreTrace denv inp ++
            (runStrategies denv.run files msg pushStrategies).2) = _
    rw [runStrategies_spec denv.run files msg ha hc pushStrategies]
  have hsub := upToFirstOk_sublist denv.run pushStrategies
  have h2 : pushesIn (troubleshoot_and_retry denv inp files msg).2 =
      upToFirstOk denv.run pushStrategies := by
    rw [hpair]
    dsimp only
    rw [pushesIn, List.filter_append, ← pushesIn, ← pushesIn,
      pushesIn_preTrace denv inp, List.nil_append]
    exact pushesIn_flatMap_iter files msg _
      (fun s hs => pushStrategies_all_push s (hsub.subset hs))
  refine ⟨hpair, h2, hsub, pushStrategies_nodup.sublist hsub, ?_, ?_⟩
  · rw [hpair]
    dsimp only
    exact List.any_eq_true
  · intro hall
    constructor
    · rw [hpair]
      dsimp only
      rw [List.any_eq_false]
      intro s hs
      simp [hall s hs]
    · rw [h2, upToFirstOk_of_all_fail denv.run pushStrategies hall]

/-- Environment of the C3 witness: adds and commits succeed, the first
strategy's push is rejected, every other push succeeds. -/
def envC3 : GitEnv := fun c =>
  if c = pushMainCmd then CmdRes.err "rejected" else CmdRes.ok "ok"

def denvC3 : DiagEnv := ⟨true, envC3⟩

def inpC3 : TroubleshootInput := ⟨"", false, false⟩

/-- Witness for C3: a concrete run in which strategy 1 fails and
strategy 2 succeeds; exactly the first two strategies are attempted, in
order, and the retry reports success. -/
theorem troubleshoot_strategy_order_witness :
    (∀ f ∈ ["a.py"], (denvC3.run (addCmd f)).isOk = true) ∧
    (denvC3.run (commitCmd "Update files")).isOk = true ∧
    pushesIn (troubleshoot_and_retry denvC3 inpC3 ["a.py"] "Update files").2 =
      [pushMainCmd, pushUpstreamCmd] ∧
    (troubleshoot_and_retry denvC3 inpC3 ["a.py"] "Update files").1 = true := by
  have h := troubleshoot_strategy_order denvC3 inpC3 ["a.py"] "Update files"
    (by decide) (by decide)
  refine ⟨by decide, by decide, ?_, ?_⟩
  · exact h.2.1.trans (by decide)
  · exact h.2.2.2.2.1.mpr ⟨pushUpstreamCmd, by decide, by decide⟩

/-- Environment of the C5 counterexample and witness: a repository in
which every git probe fails. -/
def denvC5 : DiagEnv := ⟨true, fun _ => CmdRes.err "fatal"⟩

/-- Counterexample to C5 as stated: when branch resolution fails inside
a repository, `run_git_diagnostics` sets `current_branch` to the string
"unknown" — the field is not absent. -/
theorem diagnostics_counterexample :
    (run_git_diagnostics denvC5).current_branch = some "unknown" ∧
    (run_git_diagnostics denvC5).current_branch ≠ none := by
  refine ⟨?_, ?_⟩ <;> decide

/-- C5 (amended): `run_git_diagnostics` is a total function of the
repository state; every failing sub-check defaults (`has_remote` and
`has_commits` to `false`, the status lists to empty, `remote_url`
absent) instead of propagating, and a full record is always returned —
but on branch-resolution failure `current_branch` defaults to the
string "unknown" rather than being absent (it is absent only outside a
repository). -/
theorem run_git_diagnostics_best_effort (denv : DiagEnv) :
    (denv.isRepo = false → run_git_diagnostics denv = initDiagnostics)
    ∧ (run_git_diagnostics denv).is_git_repo = denv.isRepo
    ∧ (denv.isRepo = true →
        (((denv.run branchShowCmd).isOk = false →
            (run_git_diagnostics denv).current_branch = some "unknown")
        ∧ ((denv.run (remoteGetUrlCmd "origin")).isOk = false →
            (run_git_diagnostics denv).has_remote = false ∧
            (run_git_diagnostics denv).remote_url = none)
        ∧ ((denv.run logOnelineCmd).isOk = false →
            (run_git_diagnostics denv).has_commits = false)
        ∧ ((denv.run statusPorcelainCmd).isOk = false →
            (run_git_diagnostics denv).staged_files = [] ∧
            (run_git_diagnostics denv).modified_files = [] ∧
            (run_git_diagnostics denv).untracked_files = []))) := by
  by_cases hrepo : denv.isRepo = true
  · refine ⟨fun h => by simp [h] at hrepo, ?_⟩
    rcases hb : denv.run branchShowCmd with o1 | m1 <;>
      rcases hrem : denv.run (remoteGetUrlCmd "origin") with o2 | m2 <;>
      rcases hlog : denv.run logOnelineCmd with o3 | m3 <;>
      rcases hst : denv.run statusPorcelainCmd with o4 | m4 <;>
      simp [run_git_diagnostics, hrepo, hb, hrem, hlog, hst, CmdRes.isOk,
        initDiagnostics]
  · have hrepo' : denv.isRepo = false := by
      cases h : denv.isRepo
      · rfl
      · exact absurd h hrepo
    refine ⟨fun _ => ?_, ?_, fun h => absurd h (by simp [hrepo'])⟩
    · simp [run_git_diagnostics, hrepo', initDiagnostics]
    · simp [run_git_diagnostics, hrepo', initDiagnostics]

/-- Witness for the amended C5: in a repository where every probe
fails, every default is observed and the record is the fully populated
best-effort one. -/
theorem run_git_diagnostics_best_effort_witness :
    denvC5.isRepo = true ∧
    (denvC5.run branchShowCmd).isOk = false ∧
    ((run_git_diagnostics denvC5).current_branch = some "unknown" ∧
     (run_git_diagnostics denvC5).has_remote = false ∧
     (run_git_diagnostics denvC5).remote_url = none ∧
     (run_git_diagnostics denvC5).has_commits = false ∧
     (run_git_diagnostics denvC5).staged_files = []) := by
  have h := (run_git_diagnostics_best_effort denvC5).2.2 (by decide)
  refine ⟨by decide, by decide, h.1 (by decide), (h.2.1 (by decide)).1,
    (h.2.1 (by decide)).2, h.2.2.1 (by decide), (h.2.2.2 (by decide)).1⟩

/-- C6: `add_remote` replaces an existing remote only after an explicit
affirmative confirmation; when the confirmation is declined the
existing remote configuration is untouched (no remove and no add
command is issued) and the operation reports failure. -/
theorem add_remote_requires_confirmation (env : GitEnv) (cr : Bool)
    (url name : String) :
    ((env (remoteGetUrlCmd name)).isOk = true → cr = false →
       add_remote env cr url name = (false, [remoteGetUrlCmd name]) ∧
       remoteRemoveCmd name ∉ (add_remote env cr url name).2 ∧
       remoteAddCmd name url ∉ (add_remote env cr url name).2)
    ∧ ((env (remoteGetUrlCmd name)).isOk = true →
       remoteRemoveCmd name ∈ (add_remote env cr url name).2 → cr = true) := by
  have hdecl : (env (remoteGetUrlCmd name)).isOk = true → cr = false →
      add_remote env cr url name = (false, [remoteGetUrlCmd name]) := by
    intro hok hcr
    rw [add_remote]
    cases hg : env (remoteGetUrlCmd name) with
    | ok o => simp [hcr]
    | err m => rw [hg] at hok; simp [CmdRes.isOk] at hok
  constructor
  · intro hok hcr
    refine ⟨hdecl hok hcr, ?_, ?_⟩
    · rw [hdecl hok hcr]
      simp [remoteRemoveCmd, remoteGetUrlCmd]
    · rw [hdecl hok hcr]
      simp [remoteAddCmd, remoteGetUrlCmd]
  · intro hok hmem
    by_cases hcr : cr = true
    · exact hcr
    · have hcr' : cr = false := by
        cases h : cr
        · rfl
        · exact absurd h hcr
      rw [hdecl hok hcr'] at hmem
      simp [remoteRemoveCmd, remoteGetUrlCmd] at hmem

/-- Environment of the C6 witness: an "origin" remote exists. -/
def envC6 : GitEnv := fun _ => CmdRes.ok "https://example.com/old.git"

/-- Witness for C6: with an existing remote and a declined
confirmation, the call fails and issues neither a remove nor an add. -/
theorem add_remote_requires_confirmation_witness :
    (envC6 (remoteGetUrlCmd "origin")).isOk = true ∧
    add_remote envC6 false "https://example.com/new.git" "origin" =
      (false, [remoteGetUrlCmd "origin"]) ∧
    remoteRemoveCmd "origin" ∉
      (add_remote envC6 false "https://example.com/new.git" "origin").2 ∧
    remoteAddCmd "origin" "https://example.com/new.git" ∉
      (add_remote envC6 false "https://example.com/new.git" "origin").2 := by
  have h := (add_remote_requires_confirmation envC6 false
    "https://example.com/new.git" "origin").1 (by decide) rfl
  exact ⟨by decide, h.1, h.2.1, h.2.2⟩

/-- The path `os.path.join(dir_path, filename)` that
`create_directory_and_file` writes to. -/
def targetPath (fops : FileOps) (dirName fname : String) : String :=
  pathJoin (if dirName ≠ "" then pathJoin fops.current_dir dirName
            else fops.current_dir) fname

lemma create_dir_file_write (fops : FileOps) (fs : FS)
    (dirName fname : String) (content : Option String) (hf : fname ≠ "") :
    (create_directory_and_file fops fs dirName fname content).1 = true ∧
    readFile (create_directory_and_file fops fs dirName fname content).2
      (targetPath fops dirName fname) = some (fileContentFor fname content) ∧
    OsCall.openWrite (targetPath fops dirName fname)
        (fileContentFor fname content) ∈
      (create_directory_and_file fops fs dirName fname content).2.calls := by
  by_cases hd : dirName = ""
  · simp [create_directory_and_file, hf, hd, osOpenWrite, readFile, targetPath]
  · by_cases hm : pathJoin fops.current_dir dirName ∈ fs.dirs <;>
      simp [create_directory_and_file, hf, hd, osMakedirs, hm, osOpenWrite,
        readFile, targetPath]

lemma create_file_in_directory_write (fops : FileOps) (fs : FS)
    (directory fname : String) (content : Option String) (hf : fname ≠ "") :
    (create_file_in_directory fops fs directory fname content).1 = true ∧
    OsCall.openWrite (pathJoin (pathJoin fops.current_dir directory) fname)
        (fileContentFor fname content) ∈
      (create_file_in_directory fops fs directory fname content).2.calls := by
  by_cases hm : pathJoin fops.current_dir directory ∈ fs.dirs <;>
    simp [create_file_in_directory, hf, osMakedirs, hm, osOpenWrite]

/-- C2 (amended): no name validation is performed — for any path
arguments, including names containing the blocked characters or names
longer than 255 characters, both creation operations proceed straight
to the OS calls (the write call is always issued) and succeed; no
`InvalidName` failure exists anywhere in the code. -/
theorem creation_no_validation (fops : FileOps) (fs : FS)
    (dirName fname : String) (content : Option String) (h : fname ≠ "") :
    ((create_directory_and_file fops fs dirName fname content).1 = true ∧
     OsCall.openWrite (targetPath fops dirName fname)
         (fileContentFor fname content) ∈
       (create_directory_and_file fops fs dirName fname content).2.calls)
    ∧ ((create_file_in_directory fops fs dirName fname content).1 = true ∧
       OsCall.openWrite (pathJoin (pathJoin fops.current_dir dirName) fname)
           (fileContentFor fname content) ∈
         (create_file_in_directory fops fs dirName fname content).2.calls) := by
  have h1 := create_dir_file_write fops fs dirName fname content h
  have h2 := create_file_in_directory_write fops fs dirName fname content h
  exact ⟨⟨h1.1, h1.2.2⟩, h2⟩

/-- The empty starting filesystem and the working directory of the
concrete file-operation runs. -/
def fs0 : FS := ⟨[], [], []⟩

def fopsW : FileOps := ⟨"/work"⟩

/-- Counterexample to C2 as stated: a filename containing the blocked
characters `<`, `|` and `?` is not rejected — the operation reports
success, issues the OS write call, and the file exists afterwards, so
no `InvalidName` failure and no validation happen before the OS call. -/
theorem creation_no_validation_counterexample :
    (create_directory_and_file fopsW fs0 "" "bad<file|name?.xyz" none).1 = true ∧
    (create_directory_and_file fopsW fs0 "" "bad<file|name?.xyz" none).2.calls =
      [OsCall.openWrite "/work/bad<file|name?.xyz" "Hello World!"] ∧
    readFile (create_directory_and_file fopsW fs0 "" "bad<file|name?.xyz" none).2
      "/work/bad<file|name?.xyz" = some "Hello World!" := by
  refine ⟨by decide, by decide, by decide⟩

/-- Witness for the amended C2: the theorem applied to a blocked-character
name shows the OS write call is issued. -/
theorem creation_no_validation_witness :
    ("bad<file|name?.xyz" ≠ "") ∧
    (create_directory_and_file fopsW fs0 "" "bad<file|name?.xyz" none).1 = true ∧
    OsCall.openWrite (targetPath fopsW "" "bad<file|name?.xyz")
        (fileContentFor "bad<file|name?.xyz" none) ∈
      (create_directory_and_file fopsW fs0 "" "bad<file|name?.xyz" none).2.calls := by
  have h := (creation_no_validation fopsW fs0 "" "bad<file|name?.xyz" none
    (by decide)).1
  exact ⟨by decide, h.1, h.2⟩

/-- C7: directory creation is idempotent — creating a directory that
already exists (because the same call just created it) succeeds exactly
as the first creation did and leaves the filesystem contents
unchanged. -/
theorem createPath_idempotent (fops : FileOps) (fs : FS) (dirName : String)
    (h : dirName ≠ "") :
    (create_directory_and_file fops fs dirName "" none).1 = true ∧
    (create_directory_and_file fops
        (create_directory_and_file fops fs dirName "" none).2 dirName "" none).1 =
      true ∧
    (create_directory_and_file fops
        (create_directory_and_file fops fs dirName "" none).2 dirName "" none).2.dirs =
      (create_directory_and_file fops fs dirName "" none).2.dirs ∧
    (create_directory_and_file fops
        (create_directory_and_file fops fs dirName "" none).2 dirName "" none).2.files =
      (create_directory_and_file fops fs dirName "" none).2.files := by
  by_cases hm : pathJoin fops.current_dir dirName ∈ fs.dirs <;>
    simp [create_directory_and_file, h, osMakedirs, hm]

/-- Witness for C7: creating "dsa" twice in the empty filesystem
succeeds both times and the second run changes nothing. -/
theorem createPath_idempotent_witness :
    ("dsa" ≠ "") ∧
    (create_directory_and_file fopsW fs0 "dsa" "" none).1 = true ∧
    (create_directory_and_file fopsW
        (create_directory_and_file fopsW fs0 "dsa" "" none).2 "dsa" "" none).1 =
      true ∧
    (create_directory_and_file fopsW
        (create_directory_and_file fopsW fs0 "dsa" "" none).2 "dsa" "" none).2.dirs =
      (create_directory_and_file fopsW fs0 "dsa" "" none).2.dirs := by
  have h := createPath_idempotent fopsW fs0 "dsa" (by decide)
  exact ⟨by decide, h.1, h.2.1, h.2.2.1⟩

/-- C8: template resolution is total — the lower-cased last extension
component is looked up exactly in the template table, and the fixed
generic greeting "Hello World!" is returned whenever the extension is
unknown or the filename has no extension; this is exactly the content
default used by the file-creation operations. -/
theorem template_resolution (fname : String) :
    (fname.toList.contains '.' = false →
        default_contents_get (extLower fname) = "Hello World!")
    ∧ (defaultContentsTable.lookup (extLower fname) = none →
        default_contents_get (extLower fname) = "Hello World!")
    ∧ (∀ v, defaultContentsTable.lookup (extLower fname) = some v →
        default_contents_get (extLower fname) = v)
    ∧ fileContentFor fname none = default_contents_get (extLower fname) := by
  refine ⟨?_, ?_, ?_, rfl⟩
  · intro h
    have hext : extLower fname = "" := by
      have h' : ¬(fname.toList.contains '.' = true) := by
        intro hh
        rw [hh] at h
        exact Bool.noConfusion h
      rw [extLower, if_neg h']
    rw [hext]
    decide
  · intro h
    rw [default_contents_get, h]
    rfl
  · intro v h
    rw [default_contents_get, h]
    rfl

/-- Witness for C8: a filename without an extension resolves to the
greeting, an unknown extension resolves to the greeting, and a known
(upper-cased) extension resolves to its template. -/
theorem template_resolution_witness :
    ("README".toList.contains '.' = false ∧
     default_contents_get (extLower "README") = "Hello World!") ∧
    (defaultContentsTable.lookup (extLower "data.csv") = none ∧
     default_contents_get (extLower "data.csv") = "Hello World!") ∧
    (defaultContentsTable.lookup (extLower "main.PY") =
       some "print(\x27Hello World!\x27)" ∧
     default_contents_get (extLower "main.PY") =
       "print(\x27Hello World!\x27)") := by
  refine ⟨⟨by decide, (template_resolution "README").1 (by decide)⟩,
    ⟨by decide, (template_resolution "data.csv").2.1 (by decide)⟩,
    ⟨by decide, (template_resolution "main.PY").2.2.1 _ (by decide)⟩⟩

/-- C9: writing a file with explicit non-empty content and reading it
back returns exactly that content; the extension's template default is
substituted exactly when the supplied content is empty or absent. -/
theorem write_read_roundtrip (fops : FileOps) (fs : FS)
    (dirName fname c : String) (hf : fname ≠ "") :
    (c ≠ "" →
        (create_directory_and_file fops fs dirName fname (some c)).1 = true ∧
        readFile (create_directory_and_file fops fs dirName fname (some c)).2
          (targetPath fops dirName fname) = some c)
    ∧ readFile (create_directory_and_file fops fs dirName fname none).2
        (targetPath fops dirName fname) =
      some (default_contents_get (extLower fname))
    ∧ readFile (create_directory_and_file fops fs dirName fname (some "")).2
        (targetPath fops dirName fname) =
      some (default_contents_get (extLower fname)) := by
  have h1 := create_dir_file_write fops fs dirName fname (some c) hf
  have h2 := create_dir_file_write fops fs dirName fname none hf
  have h3 := create_dir_file_write fops fs dirName fname (some "") hf
  refine ⟨fun hc => ⟨h1.1, ?_⟩, ?_, ?_⟩
  · rw [h1.2.1]
    rw [fileContentFor]
    simp [hc]
  · exact h2.2.1
  · rw [h3.2.1]
    rfl

/-- Witness for C9: a concrete non-empty content round-trips, and the
empty/absent contents fall back to the template. -/
theorem write_read_roundtrip_witness :
    ("notes.txt" ≠ "") ∧ ("custom body" ≠ "") ∧
    readFile (create_directory_and_file fopsW fs0 "" "notes.txt"
        (some "custom body")).2 (targetPath fopsW "" "notes.txt") =
      some "custom body" ∧
    readFile (create_directory_and_file fopsW fs0 "" "notes.txt" none).2
        (targetPath fopsW "" "notes.txt") =
      some (default_contents_get (extLower "notes.txt")) := by
  have h := write_read_roundtrip fopsW fs0 "" "notes.txt" "custom body" (by decide)
  exact ⟨by decide, by decide, (h.1 (by decide)).2, h.2.1⟩

/-- C10: `GitOperations.current_dir` is fixed at construction to the
process startup directory and no operation mutates it; directory
navigation only moves the `FileOperations` cursor, so after any
sequence of navigation steps every git subprocess batch is still issued
with `cwd` equal to the original startup directory. -/
theorem git_cwd_fixed_under_navigation (env : NavEnv) (steps : List NavStep)
    (cwd : String) :
    (applyNav env steps (initApp cwd)).gitDir = cwd
    ∧ (∀ (cmds : List (List String)) (inv : String × List String),
        inv ∈ gitInvocations (applyNav env steps (initApp cwd)) cmds →
        inv.1 = cwd) := by
  have hg : (applyNav env steps (initApp cwd)).gitDir = cwd :=
    applyNav_gitDir env steps (initApp cwd)
  refine ⟨hg, ?_⟩
  intro cmds inv hinv
  rcases List.mem_map.mp hinv with ⟨c, _, rfl⟩
  exact hg

/-- Path environment of the C10 witness. -/
def navEnvW : NavEnv :=
  ⟨fun _ => true, fun p => p, fun _ => "/"⟩

/-- Witness for C10: after entering a subdirectory and going to the
parent, a push batch is still issued at the startup directory. -/
theorem git_cwd_fixed_under_navigation_witness :
    (applyNav navEnvW [NavStep.changeDir "dsa", NavStep.goParent]
        (initApp "/home/user")).gitDir = "/home/user" ∧
    ("/home/user", pushMainCmd) ∈
      gitInvocations (applyNav navEnvW [NavStep.changeDir "dsa", NavStep.goParent]
        (initApp "/home/user")) [pushMainCmd] ∧
    ("/home/user", pushMainCmd).1 = "/home/user" := by
  have h := git_cwd_fixed_under_navigation navEnvW
    [NavStep.changeDir "dsa", NavStep.goParent] "/home/user"
  refine ⟨h.1, by decide, ?_⟩
  exact h.2 [pushMainCmd] ("/home/user", pushMainCmd) (by decide)
